import Mathlib

/-!
Verification development for the VCF anonymization repository
(`vcf_anonymizer.py` and `vcf_anonymization_verifier.py`).

The embedding models:
* DNA sequences and alleles as `List Char`;
* the regex-based STR engine (`build_str_patterns` / `re.search` / `re.sub`
  with the literal patterns `([ACGT]{k})\1{r-1,}` and `(motif){r,}`) as
  explicit left-to-right scanners;
* Python numeric annotation values (which may be `None`, parsable numbers,
  or unparsable objects on which `float()` raises) as an inductive type,
  with `Rat` standing for Python floats;
* code that can raise an exception as functions into `Except Unit`.
-/

namespace VCFAnon

def isACGT (c : Char) : Bool := c == 'A' || c == 'C' || c == 'G' || c == 'T'

/-- Number of contiguous leading repeats of `motif` at the head of `s`: the
largest `j ≤ s.length` such that `motif^j` is a leading segment of `s`.  This is
how the greedy quantifier `{r,}` consumes copies of a literal motif (nothing
follows the quantifier in the source patterns, so the greedy maximum is kept). -/
def repCount (motif s : List Char) : Nat :=
  Nat.findGreatest (fun j => (List.replicate j motif).flatten <+: s) s.length

/-- One pass of Python `re.sub` over `s` with pattern `(motif){r,}` (a literal
motif, as produced by `mask_str`'s f-strings) and replacement function `f`:
scan left to right; at a position where the motif repeats at least `r` times,
replace the maximal run `motif^j` by `f (motif^j)` and continue after it
(non-overlapping matches); otherwise copy one character.  `fuel` bounds the
recursion; every step consumes at least one character, so `s.length` suffices. -/
def subAllF (motif : List Char) (r : Nat) (f : List Char → List Char) :
    Nat → List Char → List Char
  | 0, s => s
  | _ + 1, [] => []
  | fuel + 1, c :: rest =>
    let j := repCount motif (c :: rest)
    if motif ≠ [] ∧ 1 ≤ r ∧ r ≤ j then
      f (List.replicate j motif).flatten ++
        subAllF motif r f fuel (List.drop (j * motif.length) (c :: rest))
    else
      c :: subAllF motif r f fuel rest

def subAll (motif : List Char) (r : Nat) (f : List Char → List Char)
    (s : List Char) : List Char :=
  subAllF motif r f s.length s

/-- The replacement function used by `mask_str` for motifs of length ≥ 2 (the
inner `repl` of the source): walk the matched segment in motif-length chunks; a
chunk equal to the motif keeps its first character and pads the remaining
`motif.length - 1` positions with `'N'`; any other chunk is copied unchanged.
`fuel` bounds the recursion (`seg.length` suffices for a nonempty motif). -/
def chunkMaskF (motif : List Char) : Nat → List Char → List Char
  | _, [] => []
  | 0, s => s
  | fuel + 1, s =>
    let chunk := s.take motif.length
    let out := if chunk = motif then
        match motif with
        | [] => chunk
        | c :: _ => c :: List.replicate (motif.length - 1) 'N'
      else chunk
    out ++ chunkMaskF motif fuel (s.drop motif.length)

def chunkMask (motif seg : List Char) : List Char := chunkMaskF motif seg.length seg

/-- `mask_str(seq, motif, min_repeat)` from `vcf_anonymizer.py`: for a 1-base
motif, `re.sub` replaces every run of at least `r` repeats entirely by `'N'`s;
for a longer motif, every such run is rewritten chunk-by-chunk by `chunkMask`. -/
def mask_str (seq motif : List Char) (r : Nat) : List Char :=
  if motif.length = 1 then
    subAll motif r (fun g => List.replicate g.length 'N') seq
  else
    subAll motif r (chunkMask motif) seq

/-- `p.search(s)` for the compiled pattern `([ACGT]{k})\1{r-1,}`: the leftmost
position where `k` alphabet characters are followed by at least `r - 1` further
copies of themselves; returns the captured group (the motif). -/
def searchK (k r : Nat) : List Char → Option (List Char)
  | [] => none
  | c :: rest =>
    let m := (c :: rest).take k
    if m.length = k ∧ m.all isACGT = true ∧ r ≤ repCount m (c :: rest) then some m
    else searchK k r rest

/-- The per-allele pattern loop shared by both tools (`build_str_patterns`
produces one pattern per motif length `k = minm, ..., maxm`, searched in
ascending order with first-match-wins).  The last argument counts the motif
lengths that remain to be tried. -/
def detectAux (r : Nat) (s : List Char) : Nat → Nat → Option (List Char)
  | _, 0 => none
  | k, n + 1 =>
    match searchK k r s with
    | some m => some m
    | none => detectAux r s (k + 1) n

/-- STR detection over the pattern list built by `build_str_patterns minm maxm r`. -/
def detect (minm maxm r : Nat) (s : List Char) : Option (List Char) :=
  detectAux r s minm (maxm + 1 - minm)

/-! ## Annotation values and the two MAF estimators

A Python value sitting in a record's INFO map is either `None`, something
`float()` parses (modelled exactly by a rational), or a non-`None` object on
which `float()` raises (`junk`).  A field maps to a scalar or to a tuple/list
of scalars; an absent field is `Option.none` at the `Info` level. -/

inductive PyScalar
  | pynone
  | num (q : Rat)
  | junk
  deriving DecidableEq

inductive PyVal
  | scalar (v : PyScalar)
  | arr (vs : List PyScalar)
  deriving DecidableEq

/-- The INFO annotation map, restricted to the four fields the estimators read. -/
structure Info where
  maf : Option PyVal := none
  af : Option PyVal := none
  ac : Option PyVal := none
  an : Option PyVal := none
  deriving DecidableEq

/-- `_to_float` on a scalar: `float(None)` and `float(junk)` raise and the
exception is swallowed, yielding `None`. -/
def toFloatScalar : PyScalar → Option Rat
  | .num q => some q
  | _ => none

/-- `_to_float` on an arbitrary INFO value: `float()` of a tuple/list raises,
which `_to_float` swallows into `None`. -/
def toFloatVal : PyVal → Option Rat
  | .scalar v => toFloatScalar v
  | .arr _ => none

/-- `list(vals) if isinstance(vals, (tuple, list)) else [vals]`. -/
def pyItems : PyVal → List PyScalar
  | .scalar x => [x]
  | .arr vs => vs

instance {ε α : Type} [DecidableEq ε] [DecidableEq α] : DecidableEq (Except ε α) := fun a b =>
  match a, b with
  | .ok x, .ok y =>
    if h : x = y then isTrue (by rw [h]) else isFalse (fun hc => by cases hc; exact h rfl)
  | .error x, .error y =>
    if h : x = y then isTrue (by rw [h]) else isFalse (fun hc => by cases hc; exact h rfl)
  | .ok _, .error _ => isFalse (fun hc => by cases hc)
  | .error _, .ok _ => isFalse (fun hc => by cases hc)

/-- Python `max(a, b)` on floats. -/
def pymax (a b : Rat) : Rat := if a ≤ b then b else a

/-- Python `min(a, b)` on floats. -/
def pymin (a b : Rat) : Rat := if a ≤ b then a else b

/-- Python `min([ref] + xs)`. -/
def minList (ref : Rat) (xs : List Rat) : Rat := xs.foldl pymin ref

/-- Tier 3 (`AC`/`AN`) of the anonymizer's `site_maf_from_info`: guarded only by
key presence; `an` unparsable or `≤ 0` yields `None`; each `AC` entry is parsed
and kept only when parsable. -/
def anonTier3 (info : Info) : Except Unit (Option Rat) :=
  match info.ac, info.an with
  | some acv, some anv =>
    match toFloatVal anv with
    | none => .ok none
    | some an =>
      if an ≤ 0 then .ok none
      else
        let afs := ((pyItems acv).filterMap toFloatScalar).map (· / an)
        if afs = [] then .ok none
        else .ok (some (minList (pymax 0 (1 - afs.sum)) afs))
  | _, _ => .ok none

/-- Tier 2 (`AF`) of the anonymizer's `site_maf_from_info`: `None` entries are
filtered out *before* parsing, but parse failures stay in the list as `None`,
so that the subsequent `sum()` raises `TypeError` when any entry was
unparsable.  An empty list falls through to tier 3. -/
def anonTier2 (info : Info) : Except Unit (Option Rat) :=
  match info.af with
  | some v =>
    let afs := ((pyItems v).filter (fun x => x ≠ PyScalar.pynone)).map toFloatScalar
    if afs = [] then anonTier3 info
    else if afs.any (·.isNone) then .error ()
    else
      let qs := afs.reduceOption
      .ok (some (minList (pymax 0 (1 - qs.sum)) qs))
  | none => anonTier3 info

/-- `site_maf_from_info` from `vcf_anonymizer.py`.  Tier 1 takes `v[0]` of a
tuple/list value without an emptiness check (`IndexError` on an empty tuple)
and without the verifier's `is not None` guard. -/
def siteMafAnon (info : Info) : Except Unit (Option Rat) :=
  match info.maf with
  | some (.arr []) => .error ()
  | some (.arr (x :: _)) => .ok (toFloatScalar x)
  | some (.scalar x) => .ok (toFloatScalar x)
  | none => anonTier2 info

/-- Tier 3 (`AC`/`AN`) of the verifier's `site_maf_from_info`: additionally
requires both values to be non-`None`, and filters parse failures out of the
`AC` list before dividing. -/
def verifTier3 (info : Info) : Option Rat :=
  match info.ac, info.an with
  | some acv, some anv =>
    if acv = .scalar .pynone ∨ anv = .scalar .pynone then none
    else
      match toFloatVal anv with
      | none => none
      | some an =>
        if an ≤ 0 then none
        else
          let acs := ((pyItems acv).filter (fun x => x ≠ PyScalar.pynone)).filterMap toFloatScalar
          if acs = [] then none
          else
            let afs := acs.map (· / an)
            some (minList (pymax 0 (1 - afs.sum)) afs)
  | _, _ => none

/-- Tier 2 (`AF`) of the verifier's `site_maf_from_info`: requires the value to
be non-`None` and filters out parse failures after parsing, so it never raises. -/
def verifTier2 (info : Info) : Option Rat :=
  match info.af with
  | some (.scalar .pynone) => verifTier3 info
  | some v =>
    let qs := ((pyItems v).filter (fun x => x ≠ PyScalar.pynone)).filterMap toFloatScalar
    if qs = [] then verifTier3 info
    else some (minList (pymax 0 (1 - qs.sum)) qs)
  | none => verifTier3 info

/-- `site_maf_from_info` from `vcf_anonymization_verifier.py`.  Total: no code
path raises.  Tier 1 requires the value to be non-`None` and returns `None` for
an empty tuple (`v = v[0] if v else None`). -/
def siteMafVerif (info : Info) : Option Rat :=
  match info.maf with
  | some (.scalar .pynone) => verifTier2 info
  | some (.scalar x) => toFloatScalar x
  | some (.arr []) => none
  | some (.arr (x :: _)) => toFloatScalar x
  | none => verifTier2 info

/-! ## Variant records and the anonymization transform -/

/-- The slice of a variant record that the core logic reads: site coordinates,
the alternate-allele tuple, and the INFO map.  `alts = []` models both an
absent (`None`) ALT and an empty ALT tuple: Python treats both as falsy in
every guard of the source. -/
structure VRecord where
  chrom : String
  pos : Nat
  alts : List (List Char)
  info : Info
  deriving DecidableEq

/-- The sentinel alternate allele `"."`. -/
def dotAllele : List Char := ['.']

/-- The anonymizer's per-allele STR masking step: try the compiled patterns in
ascending motif-length order, and on the first hit mask with the captured
motif; `str_modified` is set only when masking actually changed the allele. -/
def strMaskAlt (minm maxm r : Nat) (alt : List Char) : List Char × Bool :=
  match detect minm maxm r alt with
  | none => (alt, false)
  | some motif =>
    let masked := mask_str alt motif r
    (masked, decide (masked ≠ alt))

/-- The record-level transformation of `anonymize_vcf_file` at `level ==
"high"`: pass through when the ALT tuple is nonempty and all-`.` (Python's
`rec.alts and all(a == "." for a in rec.alts)`); otherwise STR-mask each
allele, and only when no allele changed, suppress the ALT tuple to `(".",)`
when the MAF estimate is below the threshold.  The estimator can raise, which
propagates. -/
def transformHigh (minm maxm r : Nat) (thr : Rat) (rec : VRecord) : Except Unit VRecord :=
  if rec.alts ≠ [] ∧ ∀ a ∈ rec.alts, a = dotAllele then .ok rec
  else
    let pairs := rec.alts.map (strMaskAlt minm maxm r)
    let strModified := pairs.any Prod.snd
    let rec1 : VRecord := { rec with alts := pairs.map Prod.fst }
    if strModified then .ok rec1
    else
      match siteMafAnon rec.info with
      | .error e => .error e
      | .ok none => .ok rec1
      | .ok (some maf) =>
        if maf < thr then .ok { rec1 with alts := [dotAllele] } else .ok rec1

/-- At `level == "low"` the record itself is written unchanged (only stream
metadata, an external concern, is rewritten). -/
def transformLow (rec : VRecord) : VRecord := rec

/-! ## Verifier: targets, per-record judgment, and the reconciliation pass -/

abbrev Site := String × Nat

inductive TKind
  | STR
  | MAF
  deriving DecidableEq

/-- One entry of the collector's `site → {kind, alt_orig}` dict. -/
structure Target where
  kind : TKind
  altOrig : List (List Char)
  deriving DecidableEq

/-- `targets.get(site)` on an association-list model of the collector's dict
(the dict has one entry per site). -/
def findTarget (targets : List (Site × Target)) (s : Site) : Option Target :=
  match targets with
  | [] => none
  | (s', t) :: rest => if s' = s then some t else findTarget rest s

def siteOf (rec : VRecord) : Site := (rec.chrom, rec.pos)

/-- The `success` computation of `verify_pair` for one transformed record at a
target site.  `MAF` kind: recompute the estimate with the verifier's (total)
estimator; gone → success; still below the threshold → success only for an
empty / all-`.` ALT tuple; at or above the threshold → success regardless of
allele content.  `STR` kind: the ALT tuple must differ from the recorded
original and at least one allele must contain `'N'`. -/
def judgeRecord (thr : Rat) (t : Target) (rec : VRecord) : Bool :=
  match t.kind with
  | .MAF =>
    match siteMafVerif rec.info with
    | none => true
    | some m =>
      if m < thr then
        decide (rec.alts = [] ∨ rec.alts = [dotAllele] ∨ ∀ a ∈ rec.alts, a = dotAllele)
      else true
  | .STR => decide (rec.alts ≠ t.altOrig ∧ ∃ a ∈ rec.alts, 'N' ∈ a)

/-- The verifier's per-pair mutable state: the set of sites judged successful
and the set of sites seen in the transformed stream and not (yet) successful.
Python sets are modelled as duplicate-free lists: `List.insert` adds an
element only when absent, `List.erase` removes it. -/
structure VState where
  success : List Site
  error : List Site
  deriving DecidableEq

/-- Python `set.add` on the duplicate-free-list model of a set: insert the
element only when absent. -/
def insertSite (x : Site) (l : List Site) : List Site := if x ∈ l then l else x :: l

/-- One iteration of `verify_pair`'s loop over the transformed stream: skip
non-target sites and already-successful sites; on success promote the site and
drop it from the error set; on failure record it as an error candidate only if
it has not succeeded. -/
def verifyStep (targets : List (Site × Target)) (thr : Rat) (st : VState)
    (rec : VRecord) : VState :=
  match findTarget targets (siteOf rec) with
  | none => st
  | some t =>
    if siteOf rec ∈ st.success then st
    else if judgeRecord thr t rec then
      { success := insertSite (siteOf rec) st.success, error := st.error.erase (siteOf rec) }
    else if siteOf rec ∈ st.success then st
    else { st with error := insertSite (siteOf rec) st.error }

/-- The verifier's single pass over the transformed stream. -/
def verifyRun (targets : List (Site × Target)) (thr : Rat) (st : VState)
    (recs : List VRecord) : VState :=
  recs.foldl (verifyStep targets thr) st

def initState : VState := ⟨[], []⟩

/-- `f"{chrom}:{pos}"`. -/
def siteStr (s : Site) : String := s.1 ++ ":" ++ toString s.2

/-- The `unmasked_positions` column of the report row produced by
`verify_pair` for a `high`-level pair, with the metadata-check counts taken as
parameters (header parsing is an external collaborator's concern):
`"-"` when the verdict is `ok` or the error set is empty, otherwise the
semicolon-joined sorted `chrom:pos` strings of the error set. -/
def unmaskedPositionsField (metaT metaM : Nat) (targets : List (Site × Target))
    (thr : Rat) (recs : List VRecord) : String :=
  let st := verifyRun targets thr initState recs
  let varT := ((targets.map Prod.fst).dedup).length
  let varM := st.success.length
  if metaM + varM = metaT + varT ∨ st.error = [] then "-"
  else
    String.intercalate ";" ((st.error.map siteStr).mergeSort (fun a b => decide (a ≤ b)))

/-- Invariant maintained by the pass: both site lists are duplicate-free (so
they model Python sets) and disjoint. -/
def goodState (st : VState) : Prop :=
  st.success.Nodup ∧ st.error.Nodup ∧ st.success.Disjoint st.error

/-- One block of the `re.sub` scan: either a single character copied verbatim,
or a run of at least `r` contiguous copies of the motif, rewritten by the
replacement function. -/
def subBlock (motif : List Char) (r : Nat) (f : List Char → List Char)
    (b : List Char × List Char) : Prop :=
  (∃ c, b = ([c], [c])) ∨
    (∃ j, r ≤ j ∧ b.1 = (List.replicate j motif).flatten ∧ b.2 = f b.1)

/-- How `mask_str` rewrites one matched run: a 1-character motif's run becomes
all `'N'`; a longer motif's run is walked in motif-length chunks, a chunk equal
to the motif keeping its first character with the remaining `motif.length - 1`
characters replaced by `'N'`, any other chunk copied unchanged (`chunkMask`). -/
def runMask (motif run : List Char) : List Char :=
  if motif.length = 1 then List.replicate run.length 'N' else chunkMask motif run

/-! ## Theorems -/

/-! ### C5: the CAG scenario -/

@[simp] theorem num_ne_pynone (q : Rat) : PyScalar.num q ≠ PyScalar.pynone := fun h => by
  cases h

@[simp] theorem junk_ne_pynone : PyScalar.junk ≠ PyScalar.pynone := fun h => by cases h

theorem mem_insertSite {x a : Site} {l : List Site} :
    x ∈ insertSite a l ↔ x = a ∨ x ∈ l := by
  unfold insertSite
  split
  · rename_i h
    exact ⟨fun hx => Or.inr hx, fun hx => hx.elim (fun e => e ▸ h) id⟩
  · exact List.mem_cons

theorem nodup_insertSite {a : Site} {l : List Site} (h : l.Nodup) :
    (insertSite a l).Nodup := by
  unfold insertSite
  split
  · exact h
  · rename_i hne
    exact List.nodup_cons.mpr ⟨hne, h⟩


/-- **C5 counterexample**: masking the allele `"CAGCAGCAGCAGCAGCAGCAG"` (7
contiguous repeats of `CAG`) with `min_repeat = 7` does not produce
`"CNGCNGCNGCNGCNGCNGCNG"`: the replacement keeps only the first character of
each motif chunk and pads the rest with `'N'`, so the third base `G` is masked
too. -/
theorem mask_str_cag_not_cng :
    mask_str "CAGCAGCAGCAGCAGCAGCAG".toList "CAG".toList 7
      ≠ "CNGCNGCNGCNGCNGCNGCNG".toList := by decide

/-- **C5 amended**: masking the allele `"CAGCAGCAGCAGCAGCAGCAG"` (7 contiguous
repeats of `CAG`) with `min_repeat = 7` produces `"CNNCNNCNNCNNCNNCNNCNN"`
(first chunk character kept, remaining `motif_len - 1` characters replaced by
`'N'`). -/
theorem mask_str_cag_masked :
    mask_str "CAGCAGCAGCAGCAGCAGCAG".toList "CAG".toList 7
      = "CNNCNNCNNCNNCNNCNNCNN".toList := by decide

/-! ## C4: the anonymizer's estimator can raise -/

/-- **C4**: contrary to the claim, the anonymizer's `site_maf_from_info` raises
(`TypeError` in `sum()`/`min()`) on an annotation map whose `AF` field holds a
non-`None` value that `float()` cannot parse: the parse failure is kept as
`None` inside the list instead of being dropped.  The verifier's copy of the
same function (and the `AC` tier of the anonymizer's own function) drops it,
which is what the claim describes. -/
theorem siteMafAnon_raises_on_unparsable_af :
    siteMafAnon { af := some (.arr [.junk]) } = .error () ∧
    siteMafVerif { af := some (.arr [.junk]) } = none := ⟨rfl, rfl⟩

/-! ## C1: the two estimators are not identical -/

/-- **C1 counterexample**: on the annotation map `{MAF: None, AF: (0.3,)}` the
anonymizer's estimator answers `None` (its tier 1 consumes any present `MAF`
key) while the verifier's estimator skips the `None`-valued `MAF` and answers
`0.3` from the `AF` tier, so masking and checking do not apply identical
classification logic. -/
theorem maf_estimators_disagree :
    siteMafAnon { maf := some (.scalar .pynone), af := some (.arr [.num (3/10)]) } = .ok none ∧
    siteMafVerif { maf := some (.scalar .pynone), af := some (.arr [.num (3/10)]) }
      = some (3/10) ∧
    siteMafAnon { maf := some (.scalar .pynone), af := some (.arr [.num (3/10)]) }
      ≠ .ok (siteMafVerif { maf := some (.scalar .pynone), af := some (.arr [.num (3/10)]) }) := by
  have h2 : siteMafVerif { maf := some (.scalar .pynone), af := some (.arr [.num (3/10)]) }
      = some (3/10) := by
    norm_num [siteMafVerif, verifTier2, pyItems, toFloatScalar, minList, pymin, pymax,
      reduceCtorEq, List.filterMap_cons, List.filterMap_nil]
  refine ⟨rfl, h2, ?_⟩
  rw [h2]
  intro hc
  injection hc with hc'
  exact Option.noConfusion hc'

/-! ### C1 amended: where the two estimators do agree -/

theorem filterMap_toFloat_filter_pynone (l : List PyScalar) :
    (l.filter (fun x => x ≠ PyScalar.pynone)).filterMap toFloatScalar
      = l.filterMap toFloatScalar := by
  induction l with
  | nil => rfl
  | cons x xs ih => cases x <;> simpa [toFloatScalar] using ih

/-- On a junk-free list, the anonymizer's parsed-`AF` list (which keeps parse
failures as `None`) carries exactly the verifier's filtered values. -/
theorem af_lists_core (l : List PyScalar) (h : ∀ x ∈ l, x ≠ PyScalar.junk) :
    ((l.filter (fun x => x ≠ PyScalar.pynone)).map toFloatScalar).reduceOption
        = (l.filter (fun x => x ≠ PyScalar.pynone)).filterMap toFloatScalar ∧
      (((l.filter (fun x => x ≠ PyScalar.pynone)).map toFloatScalar).any (·.isNone)) = false ∧
      ((l.filter (fun x => x ≠ PyScalar.pynone)).map toFloatScalar = [] ↔
        (l.filter (fun x => x ≠ PyScalar.pynone)).filterMap toFloatScalar = []) := by
  induction l with
  | nil => exact ⟨rfl, rfl, by simp⟩
  | cons x xs ih =>
    have hx := h x (List.mem_cons_self x xs)
    have ih' := ih (fun y hy => h y (List.mem_cons_of_mem x hy))
    cases x with
    | pynone => simpa using ih'
    | junk => exact absurd rfl hx
    | num q =>
      refine ⟨?_, ?_, ?_⟩
      · simpa [toFloatScalar, List.reduceOption_cons_of_some] using ih'.1
      · simpa [toFloatScalar] using ih'.2.1
      · simp [toFloatScalar]

theorem tier3_agree (info : Info) : anonTier3 info = .ok (verifTier3 info) := by
  obtain ⟨mafv, afv, acv, anv⟩ := info
  cases acv with
  | none => rfl
  | some acv =>
    cases anv with
    | none => rfl
    | some anv =>
      simp only [anonTier3, verifTier3]
      by_cases hpy : acv = PyVal.scalar PyScalar.pynone ∨ anv = PyVal.scalar PyScalar.pynone
      · rw [if_pos hpy]
        rcases hpy with rfl | rfl
        · cases htf : toFloatVal anv with
          | none => rfl
          | some an =>
            dsimp only
            by_cases hle : an ≤ 0
            · rw [if_pos hle]
            · rw [if_neg hle]
              simp [pyItems, toFloatScalar]
        · rfl
      · rw [if_neg hpy]
        cases htf : toFloatVal anv with
        | none => rfl
        | some an =>
          dsimp only
          by_cases hle : an ≤ 0
          · rw [if_pos hle, if_pos hle]
          · rw [if_neg hle, if_neg hle, filterMap_toFloat_filter_pynone]
            by_cases hnil : (pyItems acv).filterMap toFloatScalar = []
            · rw [hnil]
              simp
            · have hmap : ¬ ((pyItems acv).filterMap toFloatScalar).map (· / an) = [] := by
                intro hc
                exact hnil (by simpa using hc)
              rw [if_neg hmap, if_neg hnil]

theorem tier2_agree (info : Info)
    (haf : ∀ v, info.af = some v → ∀ x ∈ pyItems v, x ≠ PyScalar.junk) :
    anonTier2 info = .ok (verifTier2 info) := by
  obtain ⟨mafv, afv, acv, anv⟩ := info
  cases afv with
  | none => exact tier3_agree _
  | some v =>
    have hv := haf v rfl
    have hcore := af_lists_core (pyItems v) hv
    cases v with
    | scalar x =>
      cases x with
      | pynone => exact tier3_agree _
      | junk => exact absurd rfl (hv _ (List.mem_singleton.mpr rfl))
      | num q =>
        simp only [anonTier2, verifTier2]
        by_cases hnil : ((pyItems (PyVal.scalar (PyScalar.num q))).filter
            (fun x => x ≠ PyScalar.pynone)).map toFloatScalar = []
        · rw [if_pos hnil, if_pos (hcore.2.2.mp hnil)]
          exact tier3_agree _
        · have hany : ¬ ((((pyItems (PyVal.scalar (PyScalar.num q))).filter
              (fun x => x ≠ PyScalar.pynone)).map toFloatScalar).any (fun x => x.isNone)) = true := by
            rw [hcore.2.1]
            exact Bool.false_ne_true
          rw [if_neg hnil, if_neg hany, if_neg (fun hc => hnil (hcore.2.2.mpr hc)), hcore.1]
    | arr vs =>
      simp only [anonTier2, verifTier2]
      by_cases hnil : ((pyItems (PyVal.arr vs)).filter
          (fun x => x ≠ PyScalar.pynone)).map toFloatScalar = []
      · rw [if_pos hnil, if_pos (hcore.2.2.mp hnil)]
        exact tier3_agree _
      · have hany : ¬ ((((pyItems (PyVal.arr vs)).filter
            (fun x => x ≠ PyScalar.pynone)).map toFloatScalar).any (fun x => x.isNone)) = true := by
          rw [hcore.2.1]
          exact Bool.false_ne_true
        rw [if_neg hnil, if_neg hany, if_neg (fun hc => hnil (hcore.2.2.mpr hc)), hcore.1]

/-- **C1 amended**: the anonymizer's and the verifier's `site_maf_from_info`
return the same result on every annotation map in which (i) a present `MAF`
field is neither `None` nor an empty sequence, and (ii) every `AF` entry is
either `None` or parsable.  (Outside these conditions they genuinely differ:
see the counterexample, where a `None`-valued `MAF` makes the anonymizer stop
at tier 1 while the verifier falls through to `AF`; an empty `MAF` tuple makes
the anonymizer raise `IndexError`; an unparsable `AF` entry makes it raise
`TypeError`.) -/
theorem maf_estimators_agree (info : Info)
    (hmaf1 : info.maf ≠ some (.scalar .pynone))
    (hmaf2 : info.maf ≠ some (.arr []))
    (haf : ∀ v, info.af = some v → ∀ x ∈ pyItems v, x ≠ PyScalar.junk) :
    siteMafAnon info = .ok (siteMafVerif info) := by
  obtain ⟨mafv, afv, acv, anv⟩ := info
  cases mafv with
  | some v =>
    cases v with
    | scalar x =>
      cases x with
      | pynone => exact absurd rfl hmaf1
      | num q => rfl
      | junk => rfl
    | arr vs =>
      cases vs with
      | nil => exact absurd rfl hmaf2
      | cons x xs => rfl
  | none => exact tier2_agree ⟨none, afv, acv, anv⟩ haf

/-- Witness for `maf_estimators_agree` on the annotation map `{AF: (0.3,)}`. -/
theorem maf_estimators_agree_witness :
    siteMafAnon { af := some (.arr [.num (3/10)]) }
      = .ok (siteMafVerif { af := some (.arr [.num (3/10)]) }) :=
  maf_estimators_agree { af := some (.arr [.num (3/10)]) }
    (by intro h; cases h) (by intro h; cases h)
    (fun v hv => by
      cases hv
      intro x hx
      rcases List.mem_singleton.mp hx with rfl
      intro h
      cases h)

/-! ## C6 and C7: the per-record success judgment -/

/-- **C6**: for a not-yet-reconciled record at a `MAF`-kind target site, the
verifier judges success iff the estimate recomputed from the transformed
record's annotations is gone, or is at or above the threshold (regardless of
allele content), or is below the threshold while the transformed ALT tuple is
empty, the single sentinel `"."`, or all `"."`; with any non-`"."` alternate
remaining in that last case, it is a failure. -/
theorem judgeRecord_maf_iff (thr : Rat) (t : Target) (rec : VRecord)
    (hk : t.kind = TKind.MAF) :
    judgeRecord thr t rec = true ↔
      (siteMafVerif rec.info = none ∨
        (∃ m, siteMafVerif rec.info = some m ∧ thr ≤ m) ∨
        (∃ m, siteMafVerif rec.info = some m ∧ m < thr ∧
          (rec.alts = [] ∨ rec.alts = [dotAllele] ∨ ∀ a ∈ rec.alts, a = dotAllele))) := by
  obtain ⟨k, ao⟩ := t
  cases hk
  simp only [judgeRecord]
  cases h : siteMafVerif rec.info with
  | none => simp
  | some m =>
    by_cases hm : m < thr
    · simp [hm, not_le.mpr hm]
    · simp [hm, not_lt.mp hm]

/-- Witness for `judgeRecord_maf_iff` at a concrete input (empty INFO map, so
the recomputed estimate is gone and the record is judged a success). -/
theorem judgeRecord_maf_iff_witness :
    judgeRecord (1/100) ⟨TKind.MAF, []⟩ ⟨"chr1", 5, [['A']], {}⟩ = true ↔
      (siteMafVerif ({} : Info) = none ∨
        (∃ m, siteMafVerif ({} : Info) = some m ∧ 1/100 ≤ m) ∨
        (∃ m, siteMafVerif ({} : Info) = some m ∧ m < 1/100 ∧
          (([['A']] : List (List Char)) = [] ∨ [['A']] = [dotAllele] ∨
            ∀ a ∈ ([['A']] : List (List Char)), a = dotAllele))) :=
  judgeRecord_maf_iff (1/100) ⟨TKind.MAF, []⟩ ⟨"chr1", 5, [['A']], {}⟩ rfl

/-- **C7**: for a not-yet-reconciled record at an `STR`-kind target site, the
verifier judges success iff the transformed ALT tuple differs from the
target's recorded original ALT tuple and at least one transformed allele
contains the mask character `'N'`; in particular a changed tuple containing no
`'N'` anywhere is not a success. -/
theorem judgeRecord_str_iff (thr : Rat) (t : Target) (rec : VRecord)
    (hk : t.kind = TKind.STR) :
    judgeRecord thr t rec = true ↔
      (rec.alts ≠ t.altOrig ∧ ∃ a ∈ rec.alts, 'N' ∈ a) := by
  obtain ⟨k, ao⟩ := t
  cases hk
  simp [judgeRecord]

/-- Witness for `judgeRecord_str_iff` at a concrete input (a deletion changes
the tuple without introducing `'N'`, and is indeed not a success). -/
theorem judgeRecord_str_iff_witness :
    (judgeRecord (1/100) ⟨TKind.STR, [['A', 'A']]⟩ ⟨"chr1", 5, [['A']], {}⟩ = true ↔
      (([['A']] : List (List Char)) ≠ [['A', 'A']] ∧
        ∃ a ∈ ([['A']] : List (List Char)), 'N' ∈ a)) ∧
    judgeRecord (1/100) ⟨TKind.STR, [['A', 'A']]⟩ ⟨"chr1", 5, [['A']], {}⟩ = false :=
  ⟨judgeRecord_str_iff (1/100) ⟨TKind.STR, [['A', 'A']]⟩ ⟨"chr1", 5, [['A']], {}⟩ rfl,
    by decide⟩

/-! ## C9: the all-`.` pass-through -/

/-- **C9 counterexample**: a record whose ALT tuple is empty (Python `None` or
`()`, a degenerate "all alternates are `.`" case) is *not* passed through
unchanged by the high-level transform: the falsy guard `rec.alts and all(...)`
skips the pass-through, and MAF suppression then replaces the ALT tuple with
`(".",)` when the estimate is below the threshold. -/
theorem transform_empty_alts_suppressed :
    transformHigh 1 6 7 (1/100) ⟨"chr1", 5, [], { af := some (.arr [.num (1/1000)]) }⟩
      = .ok ⟨"chr1", 5, [dotAllele], { af := some (.arr [.num (1/1000)]) }⟩ ∧
    transformHigh 1 6 7 (1/100) ⟨"chr1", 5, [], { af := some (.arr [.num (1/1000)]) }⟩
      ≠ .ok ⟨"chr1", 5, [], { af := some (.arr [.num (1/1000)]) }⟩ := by
  have h : transformHigh 1 6 7 (1/100) ⟨"chr1", 5, [], { af := some (.arr [.num (1/1000)]) }⟩
      = .ok ⟨"chr1", 5, [dotAllele], { af := some (.arr [.num (1/1000)]) }⟩ := by
    norm_num [transformHigh, siteMafAnon, anonTier2, pyItems, toFloatScalar, minList,
      pymin, pymax, reduceCtorEq, List.filterMap_cons, List.filterMap_nil, List.cons_ne_nil]
  refine ⟨h, ?_⟩
  rw [h]
  intro hc
  injection hc with hc'
  exact List.noConfusion (congrArg VRecord.alts hc')

/-- **C9 amended**: for every record whose ALT tuple is *nonempty* and
all-`"."`, the transform returns the record unchanged at both levels (the
empty/absent ALT tuple is excluded: it skips the pass-through guard and MAF
suppression may replace it with `(".",)`, see the counterexample). -/
theorem transform_all_dot_unchanged (minm maxm r : Nat) (thr : Rat) (rec : VRecord)
    (h1 : rec.alts ≠ []) (h2 : ∀ a ∈ rec.alts, a = dotAllele) :
    transformHigh minm maxm r thr rec = .ok rec ∧ transformLow rec = rec := by
  refine ⟨?_, rfl⟩
  unfold transformHigh
  rw [if_pos ⟨h1, h2⟩]

/-- Witness for `transform_all_dot_unchanged` at a concrete non-variant
record. -/
theorem transform_all_dot_unchanged_witness :
    transformHigh 1 6 7 (1/100) ⟨"chr1", 5, [dotAllele], {}⟩
      = .ok ⟨"chr1", 5, [dotAllele], {}⟩ ∧
    transformLow ⟨"chr1", 5, [dotAllele], {}⟩ = ⟨"chr1", 5, [dotAllele], {}⟩ :=
  transform_all_dot_unchanged 1 6 7 (1/100) ⟨"chr1", 5, [dotAllele], {}⟩
    (by decide) (by decide)

/-! ## C8: success/error set invariants of the verification pass -/

theorem verifyStep_success_sub (targets : List (Site × Target)) (thr : Rat)
    (st : VState) (rec : VRecord) :
    st.success ⊆ (verifyStep targets thr st rec).success := by
  cases hft : findTarget targets (siteOf rec) with
  | none => simp only [verifyStep, hft]; exact List.Subset.refl _
  | some t =>
    simp only [verifyStep, hft]
    by_cases h1 : siteOf rec ∈ st.success
    · rw [if_pos h1]
      exact fun x hx => hx
    · rw [if_neg h1]
      by_cases h2 : judgeRecord thr t rec = true
      · rw [if_pos h2]
        exact fun x hx => mem_insertSite.mpr (Or.inr hx)
      · rw [if_neg h2, if_neg h1]
        exact fun x hx => hx

theorem verifyStep_good (targets : List (Site × Target)) (thr : Rat)
    (st : VState) (rec : VRecord) (h : goodState st) :
    goodState (verifyStep targets thr st rec) := by
  obtain ⟨hs, he, hd⟩ := h
  cases hft : findTarget targets (siteOf rec) with
  | none => simp only [verifyStep, hft]; exact ⟨hs, he, hd⟩
  | some t =>
    simp only [verifyStep, hft]
    by_cases h1 : siteOf rec ∈ st.success
    · rw [if_pos h1]; exact ⟨hs, he, hd⟩
    · rw [if_neg h1]
      by_cases h2 : judgeRecord thr t rec = true
      · rw [if_pos h2]
        refine ⟨?_, ?_, ?_⟩ <;> dsimp only
        · exact nodup_insertSite hs
        · exact he.erase _
        · intro x hx hx'
          rcases mem_insertSite.mp hx with rfl | hx2
          · exact he.not_mem_erase hx'
          · exact hd hx2 (List.mem_of_mem_erase hx')
      · rw [if_neg h2, if_neg h1]
        refine ⟨?_, ?_, ?_⟩ <;> dsimp only
        · exact hs
        · exact nodup_insertSite he
        · intro x hx hx'
          rcases mem_insertSite.mp hx' with rfl | hx2
          · exact h1 hx
          · exact hd hx hx2

theorem verifyRun_success_sub (targets : List (Site × Target)) (thr : Rat) :
    ∀ (recs : List VRecord) (st : VState),
      st.success ⊆ (verifyRun targets thr st recs).success := by
  intro recs
  induction recs with
  | nil => intro st; exact List.Subset.refl _
  | cons r rs ih =>
    intro st
    exact (verifyStep_success_sub targets thr st r).trans (ih (verifyStep targets thr st r))

theorem verifyRun_good (targets : List (Site × Target)) (thr : Rat) :
    ∀ (recs : List VRecord) (st : VState),
      goodState st → goodState (verifyRun targets thr st recs) := by
  intro recs
  induction recs with
  | nil => exact fun st h => h
  | cons r rs ih => exact fun st h => ih _ (verifyStep_good targets thr st r h)

theorem goodState_init : goodState initState :=
  ⟨List.nodup_nil, List.nodup_nil, fun _ hx _ => absurd hx (List.not_mem_nil _)⟩

/-- **C8**: throughout the verifier's single pass, the success and error site
sets stay disjoint; the success set only grows as the stream is consumed; and
a site present in the success set after any prefix of the stream is absent
from the error set after any extension of that prefix — later failing records
at the site can never re-add it. -/
theorem verifyRun_success_error_invariants (targets : List (Site × Target)) (thr : Rat)
    (recs₁ recs₂ : List VRecord) :
    (verifyRun targets thr initState recs₁).success.Disjoint
        (verifyRun targets thr initState recs₁).error ∧
    (verifyRun targets thr initState recs₁).success ⊆
        (verifyRun targets thr initState (recs₁ ++ recs₂)).success ∧
    ∀ x ∈ (verifyRun targets thr initState recs₁).success,
        x ∉ (verifyRun targets thr initState (recs₁ ++ recs₂)).error := by
  have hA : goodState (verifyRun targets thr initState recs₁) :=
    verifyRun_good targets thr recs₁ initState goodState_init
  have happ : verifyRun targets thr initState (recs₁ ++ recs₂)
      = verifyRun targets thr (verifyRun targets thr initState recs₁) recs₂ := by
    simp [verifyRun, List.foldl_append]
  have hB : goodState (verifyRun targets thr (verifyRun targets thr initState recs₁) recs₂) :=
    verifyRun_good targets thr recs₂ _ hA
  refine ⟨hA.2.2, ?_, ?_⟩
  · rw [happ]
    exact verifyRun_success_sub targets thr recs₂ _
  · intro x hx
    rw [happ]
    exact fun hmem => hB.2.2 (verifyRun_success_sub targets thr recs₂ _ hx) hmem

/-- Witness for `verifyRun_success_error_invariants`: a site reconciled by the
first record stays out of the error set even though the second record at the
same site (ALT equal to the original, no `'N'`) would fail the judgment. -/
theorem verifyRun_success_error_invariants_witness :
    ("chr1", 5) ∈ (verifyRun [(("chr1", 5), ⟨TKind.STR, [['A', 'A']]⟩)] (1/100) initState
        [⟨"chr1", 5, [['N']], {}⟩]).success ∧
    ("chr1", 5) ∉ (verifyRun [(("chr1", 5), ⟨TKind.STR, [['A', 'A']]⟩)] (1/100) initState
        ([⟨"chr1", 5, [['N']], {}⟩] ++ [⟨"chr1", 5, [['A', 'A']], {}⟩])).error :=
  ⟨by decide,
    (verifyRun_success_error_invariants [(("chr1", 5), ⟨TKind.STR, [['A', 'A']]⟩)] (1/100)
      [⟨"chr1", 5, [['N']], {}⟩] [⟨"chr1", 5, [['A', 'A']], {}⟩]).2.2
      ("chr1", 5) (by decide)⟩

/-! ## The structure of `re.sub`: run decomposition of `mask_str` -/

theorem length_flatten_replicate (j : Nat) (m : List Char) :
    ((List.replicate j m).flatten).length = j * m.length := by
  simp [List.length_flatten, List.map_replicate, List.sum_replicate, smul_eq_mul]

theorem repCount_sound (motif s : List Char) :
    (List.replicate (repCount motif s) motif).flatten <+: s := by
  unfold repCount
  set P : Nat → Prop := fun j => (List.replicate j motif).flatten <+: s with hP
  rcases Nat.eq_zero_or_pos (Nat.findGreatest P s.length) with h | h
  · rw [h]
    exact List.nil_prefix
  · have h2 : Nat.findGreatest P s.length = Nat.findGreatest P s.length := rfl
    exact (Nat.findGreatest_eq_iff.mp h2).2.1 (Nat.pos_iff_ne_zero.mp h)

theorem le_repCount {motif s : List Char} {j : Nat} (hm : motif ≠ [])
    (h : (List.replicate j motif).flatten <+: s) : j ≤ repCount motif s := by
  refine Nat.le_findGreatest ?_ h
  have h1 := h.length_le
  rw [length_flatten_replicate] at h1
  have h2 : 1 ≤ motif.length := List.length_pos.mpr hm
  calc j ≤ j * motif.length := Nat.le_mul_of_pos_right j h2
    _ ≤ s.length := h1

theorem subAllF_decomp (motif : List Char) (r : Nat) (f : List Char → List Char) :
    ∀ (fuel : Nat) (s : List Char), s.length ≤ fuel →
      ∃ blocks : List (List Char × List Char),
        s = (blocks.map Prod.fst).flatten ∧
        subAllF motif r f fuel s = (blocks.map Prod.snd).flatten ∧
        ∀ b ∈ blocks, subBlock motif r f b := by
  intro fuel
  induction fuel with
  | zero =>
    intro s hs
    have hs0 : s = [] := List.length_eq_zero.mp (Nat.le_zero.mp hs)
    subst hs0
    exact ⟨[], rfl, rfl, fun b hb => absurd hb (List.not_mem_nil b)⟩
  | succ fuel ih =>
    intro s hs
    cases s with
    | nil => exact ⟨[], rfl, rfl, fun b hb => absurd hb (List.not_mem_nil b)⟩
    | cons c rest =>
      by_cases hcond : motif ≠ [] ∧ 1 ≤ r ∧ r ≤ repCount motif (c :: rest)
      · obtain ⟨hm, hr, hrc⟩ := hcond
        set n := repCount motif (c :: rest) with hn
        obtain ⟨tail, htail⟩ := repCount_sound motif (c :: rest)
        rw [← hn] at htail
        have hflen : ((List.replicate n motif).flatten).length
            = n * motif.length := length_flatten_replicate _ _
        have hdrop : List.drop (n * motif.length) (c :: rest) = tail := by
          rw [← htail, ← hflen, List.drop_left]
        have hpos : 0 < n * motif.length :=
          Nat.mul_pos (lt_of_lt_of_le hr hrc) (List.length_pos.mpr hm)
        have hlen2 : (c :: rest).length = n * motif.length + tail.length := by
          rw [← htail, List.length_append, hflen]
        have htl : tail.length ≤ fuel := by
          simp only [List.length_cons] at hs hlen2
          omega
        obtain ⟨blocks, hb1, hb2, hb3⟩ := ih tail htl
        refine ⟨((List.replicate n motif).flatten,
            f (List.replicate n motif).flatten) :: blocks, ?_, ?_, ?_⟩
        · simp only [List.map_cons, List.flatten_cons]
          rw [← hb1, htail]
        · show subAllF motif r f (fuel + 1) (c :: rest) = _
          simp only [subAllF]
          rw [← hn, if_pos ⟨hm, hr, hrc⟩, hdrop]
          simp only [List.map_cons, List.flatten_cons]
          rw [hb2]
        · intro b hb
          rcases List.mem_cons.mp hb with rfl | hb'
          · exact Or.inr ⟨n, hrc, rfl, rfl⟩
          · exact hb3 b hb'
      · have htl : rest.length ≤ fuel := by
          simp only [List.length_cons] at hs
          omega
        obtain ⟨blocks, hb1, hb2, hb3⟩ := ih rest htl
        refine ⟨([c], [c]) :: blocks, ?_, ?_, ?_⟩
        · simp only [List.map_cons, List.flatten_cons]
          rw [← hb1]
          rfl
        · show subAllF motif r f (fuel + 1) (c :: rest) = _
          simp only [subAllF]
          rw [if_neg hcond]
          simp only [List.map_cons, List.flatten_cons]
          rw [hb2]
          rfl
        · intro b hb
          rcases List.mem_cons.mp hb with rfl | hb'
          · exact Or.inl ⟨c, rfl⟩
          · exact hb3 b hb'

theorem subAll_decomp (motif : List Char) (r : Nat) (f : List Char → List Char)
    (s : List Char) :
    ∃ blocks : List (List Char × List Char),
      s = (blocks.map Prod.fst).flatten ∧
      subAll motif r f s = (blocks.map Prod.snd).flatten ∧
      ∀ b ∈ blocks, subBlock motif r f b :=
  subAllF_decomp motif r f s.length s (Nat.le_refl _)

theorem chunkMaskF_length (motif : List Char) (fuel : Nat) :
    ∀ s : List Char, (chunkMaskF motif fuel s).length = s.length := by
  induction fuel with
  | zero => intro s; cases s <;> rfl
  | succ fuel ih =>
    intro s
    cases s with
    | nil => rfl
    | cons c rest =>
      have hsplit : ((c :: rest).take motif.length).length
          + ((c :: rest).drop motif.length).length = (c :: rest).length := by
        rw [← List.length_append, List.take_append_drop]
      simp only [chunkMaskF]
      rw [List.length_append, ih]
      by_cases hch : (c :: rest).take motif.length = motif
      · rw [if_pos hch]
        cases hmo : motif with
        | nil => rw [hmo] at hch hsplit; rw [← hsplit]
        | cons m0 ms =>
          rw [hmo] at hch hsplit
          rw [← hsplit, hch]
          simp [List.length_replicate]
      · rw [if_neg hch]
        exact hsplit

theorem runMask_length (motif run : List Char) : (runMask motif run).length = run.length := by
  unfold runMask
  split
  · exact List.length_replicate _ _
  · exact chunkMaskF_length motif run.length run

theorem subAll_length (motif : List Char) (r : Nat) (f : List Char → List Char)
    (hf : ∀ g, (f g).length = g.length) (s : List Char) :
    (subAll motif r f s).length = s.length := by
  obtain ⟨blocks, hb1, hb2, hb3⟩ := subAll_decomp motif r f s
  rw [hb2]
  conv_rhs => rw [hb1]
  rw [List.length_flatten, List.length_flatten, List.map_map, List.map_map]
  congr 1
  apply List.map_congr_left
  intro b hb
  rcases hb3 b hb with ⟨c, rfl⟩ | ⟨j, hj, hfst, hsnd⟩
  · rfl
  · simp only [Function.comp_apply]
    rw [hsnd, hf]

/-- `mask_str` always preserves the length of the sequence. -/
theorem mask_str_length (seq motif : List Char) (r : Nat) :
    (mask_str seq motif r).length = seq.length := by
  unfold mask_str
  split
  · exact subAll_length _ _ _ (fun g => List.length_replicate _ _) _
  · exact subAll_length _ _ _ (fun g => chunkMaskF_length motif g.length g) _

/-! ## C2: what `mask_str` touches -/

/-- **C2 counterexample**: `mask_str` does not mask only the *first* qualifying
run: `re.sub` replaces every non-overlapping match, so in
`"AAAAAAAT AAAAAAA"` (two separate 7×`A` runs around a `T`) the second run is
rewritten as well, while the claim predicts `"NNNNNNNTAAAAAAA"`. -/
theorem mask_str_masks_second_run :
    mask_str "AAAAAAATAAAAAAA".toList ['A'] 7 = "NNNNNNNTNNNNNNN".toList ∧
    mask_str "AAAAAAATAAAAAAA".toList ['A'] 7 ≠ "NNNNNNNTAAAAAAA".toList :=
  ⟨by decide, by decide⟩

/-- **C2 amended**: `mask_str seq motif r` decomposes the sequence into blocks
that are either single characters copied verbatim or runs of at least `r`
contiguous copies of the motif rewritten by `runMask`: every character outside
the qualifying runs of the motif — including repeat runs of other motifs
elsewhere in the sequence — is left untouched, but *all* qualifying runs of
the motif are masked, not only the first. -/
theorem mask_str_frame (seq motif : List Char) (r : Nat) :
    ∃ blocks : List (List Char × List Char),
      seq = (blocks.map Prod.fst).flatten ∧
      mask_str seq motif r = (blocks.map Prod.snd).flatten ∧
      ∀ b ∈ blocks,
        (∃ c, b = ([c], [c])) ∨
          (∃ j, r ≤ j ∧ b.1 = (List.replicate j motif).flatten ∧
            b.2 = runMask motif b.1) := by
  unfold mask_str
  by_cases h1 : motif.length = 1
  · rw [if_pos h1]
    obtain ⟨blocks, hb1, hb2, hb3⟩ :=
      subAll_decomp motif r (fun g => List.replicate g.length 'N') seq
    refine ⟨blocks, hb1, hb2, fun b hb => ?_⟩
    rcases hb3 b hb with h | ⟨j, hj, hfst, hsnd⟩
    · exact Or.inl h
    · exact Or.inr ⟨j, hj, hfst, by rw [hsnd]; unfold runMask; rw [if_pos h1]⟩
  · rw [if_neg h1]
    obtain ⟨blocks, hb1, hb2, hb3⟩ := subAll_decomp motif r (chunkMask motif) seq
    refine ⟨blocks, hb1, hb2, fun b hb => ?_⟩
    rcases hb3 b hb with h | ⟨j, hj, hfst, hsnd⟩
    · exact Or.inl h
    · exact Or.inr ⟨j, hj, hfst, by rw [hsnd]; unfold runMask; rw [if_neg h1]⟩

/-! ## C3: detection succeeds and masking rewrites runs chunk-wise -/

theorem flatten_replicate_mono {m : List Char} {a b : Nat} (h : a ≤ b) :
    (List.replicate a m).flatten <+: (List.replicate b m).flatten := by
  obtain ⟨c, rfl⟩ := Nat.exists_eq_add_of_le h
  rw [List.replicate_add, List.flatten_append]
  exact ⟨(List.replicate c m).flatten, rfl⟩

theorem searchK_isSome {k r : Nat} (hk1 : 1 ≤ k) (hr : 1 ≤ r) :
    ∀ (s m0 : List Char), m0.length = k → m0.all isACGT = true →
      (∃ a, (List.replicate r m0).flatten <+: s.drop a) →
      (searchK k r s).isSome = true := by
  intro s
  induction s with
  | nil =>
    rintro m0 hlen hAC ⟨a, hpre⟩
    exfalso
    have h1 := hpre.length_le
    rw [length_flatten_replicate] at h1
    simp only [List.drop_nil, List.length_nil] at h1
    have h2 : 0 < r * m0.length := Nat.mul_pos (by omega) (by omega)
    omega
  | cons c rest ih =>
    rintro m0 hlen hAC ⟨a, hpre⟩
    cases a with
    | zero =>
      rw [List.drop_zero] at hpre
      have hm0 : m0 ≠ [] := by
        intro h
        rw [h] at hlen
        simp only [List.length_nil] at hlen
        omega
      have hstep : (List.replicate 1 m0).flatten <+: (List.replicate r m0).flatten :=
        flatten_replicate_mono hr
      have hm0pre : m0 <+: c :: rest := by
        refine List.IsPrefix.trans ?_ hpre
        simpa using hstep
      obtain ⟨t, ht⟩ := hm0pre
      have htake : (c :: rest).take k = m0 := by
        rw [← ht, ← hlen, List.take_left]
      have hrc : r ≤ repCount m0 (c :: rest) := le_repCount hm0 hpre
      have hcond : ((c :: rest).take k).length = k ∧ ((c :: rest).take k).all isACGT = true
          ∧ r ≤ repCount ((c :: rest).take k) (c :: rest) := by
        rw [htake]
        exact ⟨hlen, hAC, hrc⟩
      simp only [searchK]
      rw [if_pos hcond]
      rfl
    | succ a' =>
      have hi := ih m0 hlen hAC ⟨a', by simpa [List.drop_succ_cons] using hpre⟩
      simp only [searchK]
      split
      · rfl
      · exact hi

theorem detectAux_isSome {r : Nat} {s : List Char} :
    ∀ (n k : Nat), (∃ i, i < n ∧ (searchK (k + i) r s).isSome = true) →
      (detectAux r s k n).isSome = true := by
  intro n
  induction n with
  | zero =>
    rintro k ⟨i, hi, -⟩
    omega
  | succ n ih =>
    rintro k ⟨i, hi, hsome⟩
    simp only [detectAux]
    cases hsk : searchK k r s with
    | some m => rfl
    | none =>
      cases i with
      | zero =>
        rw [Nat.add_zero, hsk] at hsome
        exact absurd hsome (by simp)
      | succ i' =>
        have heq : k + (i' + 1) = (k + 1) + i' := by omega
        rw [heq] at hsome
        exact ih (k + 1) ⟨i', by omega, hsome⟩

theorem detect_isSome {minm maxm r : Nat} {s : List Char} {k0 : Nat}
    (h1 : minm ≤ k0) (h2 : k0 ≤ maxm) (hsk : (searchK k0 r s).isSome = true) :
    (detect minm maxm r s).isSome = true := by
  unfold detect
  apply detectAux_isSome
  refine ⟨k0 - minm, by omega, ?_⟩
  have heq : minm + (k0 - minm) = k0 := by omega
  rw [heq]
  exact hsk

/-- **C3**: for every sequence over `{A,C,G,T}` containing some motif of length
`k ∈ [min_motif, max_motif]` repeated at least `min_repeat` times contiguously
(and `min_motif, min_repeat ≥ 1`, as in the tools' configurations), detection
over the compiled patterns in ascending motif-length order returns a motif;
and for the returned motif, `mask_str` produces a sequence of the same length
that decomposes into characters copied verbatim outside the matched runs and
matched runs rewritten by `runMask`: a length-1 motif's run becomes all `'N'`,
and for a longer motif each motif-length chunk equal to the motif keeps its
first character with the remaining `length - 1` characters replaced by `'N'`,
while a chunk not equal to the motif is copied unchanged. -/
theorem detect_and_mask (minm maxm r : Nat) (s m0 : List Char) (a : Nat)
    (hminm : 1 ≤ minm) (hk1 : minm ≤ m0.length) (hk2 : m0.length ≤ maxm) (hr : 1 ≤ r)
    (hACGT : s.all isACGT = true)
    (hrun : (List.replicate r m0).flatten <+: s.drop a) :
    (detect minm maxm r s).isSome = true ∧
      ∀ motif, detect minm maxm r s = some motif →
        (mask_str s motif r).length = s.length ∧
        ∃ blocks : List (List Char × List Char),
          s = (blocks.map Prod.fst).flatten ∧
          mask_str s motif r = (blocks.map Prod.snd).flatten ∧
          ∀ b ∈ blocks,
            (∃ c, b = ([c], [c])) ∨
              (∃ j, r ≤ j ∧ b.1 = (List.replicate j motif).flatten ∧
                b.2 = runMask motif b.1) := by
  constructor
  · have hstep : (List.replicate 1 m0).flatten <+: (List.replicate r m0).flatten :=
      flatten_replicate_mono hr
    have hm0pre : m0 <+: s.drop a := by
      refine List.IsPrefix.trans ?_ hrun
      simpa using hstep
    have hm0AC : m0.all isACGT = true := by
      rw [List.all_eq_true] at hACGT ⊢
      intro x hx
      exact hACGT x (List.mem_of_mem_drop (hm0pre.sublist.subset hx))
    exact detect_isSome hk1 hk2
      (searchK_isSome (le_trans hminm hk1) hr s m0 rfl hm0AC ⟨a, hrun⟩)
  · intro motif _
    exact ⟨mask_str_length s motif r, mask_str_frame s motif r⟩

/-- Witness for `detect_and_mask` on the allele `"AAAAAAA"` (7×`A`) with the
default configuration `min_motif = 1`, `max_motif = 6`, `min_repeat = 7`. -/
theorem detect_and_mask_witness :
    (detect 1 6 7 "AAAAAAA".toList).isSome = true ∧
      ∀ motif, detect 1 6 7 "AAAAAAA".toList = some motif →
        (mask_str "AAAAAAA".toList motif 7).length = "AAAAAAA".toList.length ∧
        ∃ blocks : List (List Char × List Char),
          "AAAAAAA".toList = (blocks.map Prod.fst).flatten ∧
          mask_str "AAAAAAA".toList motif 7 = (blocks.map Prod.snd).flatten ∧
          ∀ b ∈ blocks,
            (∃ c, b = ([c], [c])) ∨
              (∃ j, 7 ≤ j ∧ b.1 = (List.replicate j motif).flatten ∧
                b.2 = runMask motif b.1) :=
  detect_and_mask 1 6 7 "AAAAAAA".toList ['A'] 0 (by decide) (by decide) (by decide)
    (by decide) (by decide) (by decide)

/-! ## C10: what the `unmasked_positions` field lists -/

theorem findTarget_isSome_iff (targets : List (Site × Target)) (x : Site) :
    (findTarget targets x).isSome = true ↔ x ∈ targets.map Prod.fst := by
  induction targets with
  | nil => simp [findTarget]
  | cons p rest ih =>
    obtain ⟨s', t⟩ := p
    simp only [findTarget, List.map_cons, List.mem_cons]
    by_cases h : s' = x
    · subst h
      simp
    · rw [if_neg h, ih]
      constructor
      · exact fun hx => Or.inr hx
      · rintro (rfl | hx)
        · exact absurd rfl h
        · exact hx

theorem verifyStep_error_sub (targets : List (Site × Target)) (thr : Rat)
    (st : VState) (rec : VRecord) {x : Site}
    (hx : x ∈ (verifyStep targets thr st rec).error) :
    x ∈ st.error ∨ (siteOf rec = x ∧ (findTarget targets x).isSome = true) := by
  cases hft : findTarget targets (siteOf rec) with
  | none =>
    simp only [verifyStep, hft] at hx
    exact Or.inl hx
  | some t =>
    simp only [verifyStep, hft] at hx
    by_cases h1 : siteOf rec ∈ st.success
    · rw [if_pos h1] at hx
      exact Or.inl hx
    · rw [if_neg h1] at hx
      by_cases h2 : judgeRecord thr t rec = true
      · rw [if_pos h2] at hx
        exact Or.inl (List.mem_of_mem_erase hx)
      · rw [if_neg h2, if_neg h1] at hx
        rcases mem_insertSite.mp hx with rfl | hx2
        · exact Or.inr ⟨rfl, by rw [hft]; rfl⟩
        · exact Or.inl hx2

theorem verifyStep_error_preserved (targets : List (Site × Target)) (thr : Rat)
    (st : VState) (rec : VRecord) {x : Site} (hx : x ∈ st.error) :
    x ∈ (verifyStep targets thr st rec).error ∨ x ∈ (verifyStep targets thr st rec).success := by
  cases hft : findTarget targets (siteOf rec) with
  | none =>
    simp only [verifyStep, hft]
    exact Or.inl hx
  | some t =>
    simp only [verifyStep, hft]
    by_cases h1 : siteOf rec ∈ st.success
    · rw [if_pos h1]
      exact Or.inl hx
    · rw [if_neg h1]
      by_cases h2 : judgeRecord thr t rec = true
      · rw [if_pos h2]
        by_cases hxe : x = siteOf rec
        · subst hxe
          exact Or.inr (mem_insertSite.mpr (Or.inl rfl))
        · exact Or.inl ((List.mem_erase_of_ne hxe).mpr hx)
      · rw [if_neg h2, if_neg h1]
        exact Or.inl (mem_insertSite.mpr (Or.inr hx))

theorem verifyStep_site_recorded (targets : List (Site × Target)) (thr : Rat)
    (st : VState) (rec : VRecord) {t : Target}
    (hft : findTarget targets (siteOf rec) = some t) :
    siteOf rec ∈ (verifyStep targets thr st rec).error
      ∨ siteOf rec ∈ (verifyStep targets thr st rec).success := by
  simp only [verifyStep, hft]
  by_cases h1 : siteOf rec ∈ st.success
  · rw [if_pos h1]
    exact Or.inr h1
  · rw [if_neg h1]
    by_cases h2 : judgeRecord thr t rec = true
    · rw [if_pos h2]
      exact Or.inr (mem_insertSite.mpr (Or.inl rfl))
    · rw [if_neg h2, if_neg h1]
      exact Or.inl (mem_insertSite.mpr (Or.inl rfl))

/-- Characterization of the error set after the whole pass: a site is in it
iff it is not reconciled, and it was already recorded or some record of the
stream sits at this site and the site is a target. -/
theorem verifyRun_error_iff (targets : List (Site × Target)) (thr : Rat) :
    ∀ (recs : List VRecord) (st : VState), goodState st → ∀ x : Site,
      (x ∈ (verifyRun targets thr st recs).error ↔
        (x ∉ (verifyRun targets thr st recs).success ∧
          (x ∈ st.error ∨
            ∃ rec ∈ recs, siteOf rec = x ∧ (findTarget targets x).isSome = true))) := by
  intro recs
  induction recs with
  | nil =>
    intro st hst x
    simp only [verifyRun, List.foldl_nil]
    constructor
    · intro hx
      exact ⟨fun hs => hst.2.2 hs hx, Or.inl hx⟩
    · rintro ⟨-, hx | ⟨rec, hrec, -, -⟩⟩
      · exact hx
      · exact absurd hrec (List.not_mem_nil rec)
  | cons r rs ih =>
    intro st hst x
    have hst' := verifyStep_good targets thr st r hst
    have hiff := ih (verifyStep targets thr st r) hst' x
    show x ∈ (verifyRun targets thr (verifyStep targets thr st r) rs).error ↔ _
    rw [hiff]
    constructor
    · rintro ⟨hns, hin⟩
      refine ⟨hns, ?_⟩
      rcases hin with hin | ⟨rec, hrec, hsite, htgt⟩
      · rcases verifyStep_error_sub targets thr st r hin with h | ⟨hsite, htgt⟩
        · exact Or.inl h
        · exact Or.inr ⟨r, List.mem_cons_self r rs, hsite, htgt⟩
      · exact Or.inr ⟨rec, List.mem_cons_of_mem r hrec, hsite, htgt⟩
    · rintro ⟨hns, hin⟩
      refine ⟨hns, ?_⟩
      rcases hin with hin | ⟨rec, hrec, hsite, htgt⟩
      · rcases verifyStep_error_preserved targets thr st r hin with h | h
        · exact Or.inl h
        · exact absurd (verifyRun_success_sub targets thr rs _ h) hns
      · rcases List.mem_cons.mp hrec with rfl | hrec'
        · subst hsite
          obtain ⟨t, hft⟩ := Option.isSome_iff_exists.mp htgt
          rcases verifyStep_site_recorded targets thr st rec hft with h | h
          · exact Or.inl h
          · exact absurd (verifyRun_success_sub targets thr rs _ h) hns
        · exact Or.inr ⟨rec, hrec', hsite, htgt⟩

/-- **C10 counterexample**: a target site that never appears in the
transformed stream is unmasked (`variant_masked = 0 < 1 = variant_targets`,
so the verdict is `fail`), yet the report field shows the placeholder `"-"`
instead of listing `chr1:5`: `error_sites` only records sites seen in the
transformed stream. -/
theorem unmasked_positions_omits_unseen_target :
    unmaskedPositionsField 0 0 [(("chr1", 5), ⟨TKind.STR, [['A']]⟩)] (1/100) [] = "-" ∧
    (verifyRun [(("chr1", 5), ⟨TKind.STR, [['A']]⟩)] (1/100) initState []).success = [] ∧
    siteStr ("chr1", 5) = "chr1:5" :=
  ⟨by decide, rfl, by decide⟩

/-- **C10 amended**: the `unmasked_positions` field is the semicolon-joined,
lexicographically sorted list of `chromosome:position` strings of exactly the
target sites that *appeared in the transformed stream* and were not reconciled
successfully — not of every unmasked target site: a target site absent from
the transformed stream is counted as unmasked in the rate but is not listed.
When the verdict is `ok` or no such seen-and-unreconciled site exists, the
placeholder `"-"` is shown. -/
theorem unmaskedPositionsField_eq (metaT metaM : Nat) (targets : List (Site × Target))
    (thr : Rat) (recs : List VRecord) :
    unmaskedPositionsField metaT metaM targets thr recs =
      if metaM + (verifyRun targets thr initState recs).success.length
          = metaT + ((targets.map Prod.fst).dedup).length
        ∨ ((recs.map siteOf).dedup.filter (fun x =>
            decide (x ∈ targets.map Prod.fst ∧
              x ∉ (verifyRun targets thr initState recs).success))) = []
      then "-"
      else
        String.intercalate ";"
          ((((recs.map siteOf).dedup.filter (fun x =>
              decide (x ∈ targets.map Prod.fst ∧
                x ∉ (verifyRun targets thr initState recs).success))).map
            siteStr).mergeSort (fun a b => decide (a ≤ b))) := by
  have hgood := verifyRun_good targets thr recs initState goodState_init
  have hmem : ∀ x, x ∈ (verifyRun targets thr initState recs).error ↔
      x ∈ (recs.map siteOf).dedup.filter (fun x =>
        decide (x ∈ targets.map Prod.fst ∧
          x ∉ (verifyRun targets thr initState recs).success)) := by
    intro x
    rw [verifyRun_error_iff targets thr recs initState goodState_init x]
    simp only [List.mem_filter, List.mem_dedup, List.mem_map, decide_eq_true_eq]
    constructor
    · rintro ⟨hns, h | ⟨rec, hrec, hsite, htgt⟩⟩
      · exact absurd h (List.not_mem_nil x)
      · exact ⟨⟨rec, hrec, hsite⟩,
          List.mem_map.mp ((findTarget_isSome_iff targets x).mp htgt), hns⟩
    · rintro ⟨⟨rec, hrec, hsite⟩, htgt, hns⟩
      exact ⟨hns, Or.inr ⟨rec, hrec, hsite,
        (findTarget_isSome_iff targets x).mpr (List.mem_map.mpr htgt)⟩⟩
  have hperm : List.Perm (verifyRun targets thr initState recs).error
      ((recs.map siteOf).dedup.filter (fun x =>
        decide (x ∈ targets.map Prod.fst ∧
          x ∉ (verifyRun targets thr initState recs).success))) :=
    List.perm_of_nodup_nodup_toFinset_eq hgood.2.1 ((List.nodup_dedup _).filter _)
      (Finset.ext fun x => by
        simp only [List.mem_toFinset]
        exact hmem x)
  have hnil : ((verifyRun targets thr initState recs).error = []) ↔
      ((recs.map siteOf).dedup.filter (fun x =>
        decide (x ∈ targets.map Prod.fst ∧
          x ∉ (verifyRun targets thr initState recs).success)) = []) := by
    rw [← List.length_eq_zero, ← List.length_eq_zero, hperm.length_eq]
  have htrans : ∀ (a b c : String), (decide (a ≤ b)) → (decide (b ≤ c)) → (decide (a ≤ c)) := by
    intro a b c hab hbc
    simp only [decide_eq_true_eq] at hab hbc ⊢
    exact le_trans hab hbc
  have htotal : ∀ (a b : String), (decide (a ≤ b)) || (decide (b ≤ a)) := by
    intro a b
    simp only [Bool.or_eq_true, decide_eq_true_eq]
    exact le_total a b
  have hsortEq : (((verifyRun targets thr initState recs).error.map siteStr).mergeSort
        (fun a b => decide (a ≤ b)))
      = ((((recs.map siteOf).dedup.filter (fun x =>
          decide (x ∈ targets.map Prod.fst ∧
            x ∉ (verifyRun targets thr initState recs).success))).map siteStr).mergeSort
        (fun a b => decide (a ≤ b))) := by
    have hp := (List.mergeSort_perm ((verifyRun targets thr initState recs).error.map siteStr)
        (fun a b => decide (a ≤ b))).trans
      ((hperm.map siteStr).trans
        (List.mergeSort_perm (((recs.map siteOf).dedup.filter (fun x =>
            decide (x ∈ targets.map Prod.fst ∧
              x ∉ (verifyRun targets thr initState recs).success))).map siteStr)
          (fun a b => decide (a ≤ b))).symm)
    have hs1 : List.Sorted (fun a b => a ≤ b)
        (((verifyRun targets thr initState recs).error.map siteStr).mergeSort
          (fun a b => decide (a ≤ b))) :=
      (List.sorted_mergeSort htrans htotal _).imp (fun h => of_decide_eq_true h)
    have hs2 : List.Sorted (fun a b => a ≤ b)
        (((((recs.map siteOf).dedup.filter (fun x =>
            decide (x ∈ targets.map Prod.fst ∧
              x ∉ (verifyRun targets thr initState recs).success))).map siteStr).mergeSort
          (fun a b => decide (a ≤ b)))) :=
      (List.sorted_mergeSort htrans htotal _).imp (fun h => of_decide_eq_true h)
    exact List.eq_of_perm_of_sorted hp hs1 hs2
  simp only [unmaskedPositionsField]
  exact if_congr (or_congr Iff.rfl hnil) rfl (congrArg _ hsortEq)

end VCFAnon
